import Mathlib

/-!
Verification development for the xm2live tracker-module converter.

The converter decodes Amiga ProTracker MOD and FastTracker 2 XM files and
assembles an Ableton Live project document.  The definitions below are a
shallow embedding of the relevant source functions; beat times and tempo
values are modelled as rationals (the Python source computes them with
float arithmetic on dyadic values), byte values as naturals.
-/

/-- A note record as produced by organize_tracks_by_channel in
mod_parser.py and xm_parser.py (the dicts appended to the
channel/instrument structure).  The pitch is optional because the MOD
pipeline also forwards effect-0xF rows, whose note field is None.  The
panning field is None for MOD notes and for XM notes without effect 8xx. -/
structure TrackNote where
  time : ℚ
  pitch : Option ℤ
  velocity : ℕ
  instrument : ℕ
  duration : ℚ
  panning : Option ℕ
  sampleOffset : Option ℕ
deriving DecidableEq, Repr

/-- A per-channel timeline event inside organize_tracks_by_channel:
either a volume-stop marker (only its time is ever read) or a real note
with its payload, before the duration has been computed. -/
inductive ChEvent where
  | stop (time : ℚ)
  | note (time : ℚ) (pitch : Option ℤ) (velocity : ℕ) (instrument : ℕ)
      (panning : Option ℕ) (sampleOffset : Option ℕ)
deriving DecidableEq, Repr

/-- Time of a channel event. -/
def ChEvent.time : ChEvent → ℚ
  | .stop t => t
  | .note t _ _ _ _ _ => t

/-- Comparison used to sort a channel timeline by time
(channel_notes.sort with the time key in both parsers). -/
def timeLE (a b : ChEvent) : Prop := a.time ≤ b.time

instance : DecidableRel timeLE := fun a b => inferInstanceAs (Decidable (a.time ≤ b.time))

instance : IsTotal ChEvent timeLE := ⟨fun a b => le_total a.time b.time⟩

instance : IsTrans ChEvent timeLE := ⟨fun _ _ _ h h2 => le_trans h h2⟩

/-! ## Tempo correction (convert_xm_to_ableton, xm2live.py lines 2300-2335) -/

/-- True BPM formula of convert_xm_to_ableton:
real_bpm = xm_bpm * (6.0 / xm_speed). -/
def realBPM (bpm speed : ℚ) : ℚ := bpm * (6 / speed)

/-- Default tempo of the embedded template: the source rewrites exactly the
Manual and FloatEvent values equal to the literal 120. -/
def TEMPLATE_DEFAULT_TEMPO : ℚ := 120

/-- Rewrite applied to one tempo-carrying field value: values equal to the
template default are replaced by the real BPM, all others are kept. -/
def rewriteTempoValue (newBpm v : ℚ) : ℚ :=
  if v = TEMPLATE_DEFAULT_TEMPO then newBpm else v

/-- Rewrite pass over all tempo-carrying field values of the document
(the loops over Manual and FloatEvent elements). -/
def rewriteTempoFields (newBpm : ℚ) (vs : List ℚ) : List ℚ :=
  vs.map (rewriteTempoValue newBpm)

/-! ## Sample-start automation value
(create_sample_offset_automation and add_sample_offset_automations_to_file,
xm2live.py lines 885-926 and 1049-1075) -/

/-- Conversion of one 9xx effect parameter to a Sample Start value:
offset_in_bytes = xx * 256, offset_in_samples = offset_in_bytes / 2
(16-bit rendered PCM), divided by the sample length when positive, then
clamped to the range 0..1. -/
def sampleStartValue (offset sampleLength : ℕ) : ℚ :=
  let offsetInBytes : ℚ := (offset : ℚ) * 256
  let offsetInSamples : ℚ := offsetInBytes / 2
  let s : ℚ := if 0 < sampleLength then offsetInSamples / (sampleLength : ℚ) else 0
  max 0 (min 1 s)

/-- Comparison used to sort note lists by time in the automation emitters
and in merge_and_deduplicate_notes. -/
def timeLEN (a b : TrackNote) : Prop := a.time ≤ b.time

instance : DecidableRel timeLEN := fun a b => inferInstanceAs (Decidable (a.time ≤ b.time))

instance : IsTotal TrackNote timeLEN := ⟨fun a b => le_total a.time b.time⟩

instance : IsTrans TrackNote timeLEN := ⟨fun _ _ _ h h2 => le_trans h h2⟩

/-- The automation event list written by
add_sample_offset_automations_to_file: an initial point (0, 0), then, per
note in time order, a plateau pair at the note start and the note end, at
the converted 9xx value for notes carrying the effect and at 0 otherwise. -/
def sampleStartEvents (notes : List TrackNote) (sampleLength : ℕ) : List (ℚ × ℚ) :=
  (0, 0) :: (List.insertionSort timeLEN notes).flatMap (fun n =>
    match n.sampleOffset with
    | some x =>
        [(n.time, sampleStartValue x sampleLength),
         (n.time + n.duration, sampleStartValue x sampleLength)]
    | none => [(n.time, 0), (n.time + n.duration, 0)])

/-! ## Decoder signature dispatch
(extract_samples_and_patterns, mod_parser.py lines 260-277 and
xm_parser.py lines 187-219) -/

/-- Error taxonomy named by the specification for an unrecognized leading
signature.  The extractors in the source never construct it. -/
inductive FormatError where
  | unrecognizedSignature
deriving DecidableEq, Repr

/-- The recognized 31-sample MOD signatures. -/
def RECOGNIZED_SIGNATURES : List String :=
  ["M.K.", "M!K!", "FLT4", "FLT8", "4CHN", "6CHN", "8CHN"]

/-- Sample-slot count chosen by the MOD extractor from the signature at
offset 1080: 31 for a recognized signature, legacy 15 otherwise. -/
def modNumSamples (sig : String) : ℕ :=
  if sig ∈ RECOGNIZED_SIGNATURES then 31 else 15

/-- Channel count chosen by the MOD extractor from the signature. -/
def modNumChannels (sig : String) : ℕ :=
  if sig = "FLT8" ∨ sig = "8CHN" then 8
  else if sig = "6CHN" then 6
  else 4

/-- Outcome of the signature dispatch inside the MOD extractor
(mod_parser.py lines 260-277): every signature, recognized or not, selects
a layout and decoding continues; no branch raises. -/
def modSignatureDispatch (sig : String) : Except FormatError (ℕ × ℕ) :=
  Except.ok (modNumSamples sig, modNumChannels sig)

/-- Outcome of the leading-bytes handling inside the XM extractor
(xm_parser.py lines 187-219): the 17 id bytes are read and discarded
without any comparison, so every input proceeds to header decoding. -/
def xmSignatureDispatch (_idText : String) : Except FormatError Unit :=
  Except.ok ()

/-! ## Identifier allocation during project assembly
(convert_xm_to_ableton, xm2live.py lines 2023-2025, 2118-2119, 2212-2225,
2370-2378) -/

/-- Allocator state: the next identifier to issue. -/
structure AllocState where
  next : ℕ
deriving DecidableEq, Repr

/-- One issuance: elem.set of the current counter followed by the
increment, the pattern used at every issuing site in the source. -/
def allocId (s : AllocState) : ℕ × AllocState :=
  (s.next, ⟨s.next + 1⟩)

/-- n successive issuances from a state, returning the issued identifiers
in order together with the final state. -/
def allocMany : ℕ → AllocState → List ℕ × AllocState
  | 0, s => ([], s)
  | n + 1, s =>
      let (i, s2) := allocId s
      let (is, s3) := allocMany n s2
      (i :: is, s3)

/-- Seed of the shared automation-identifier counter: the source sets
global_next_id to the literal 100000, whatever template was loaded. -/
def GLOBAL_ID_SEED : ℕ := 100000

/-- Seed of the separate GroupTrack identifier counter: the source sets
next_group_id to the literal 10000. -/
def GROUP_ID_SEED : ℕ := 10000

/-- Seed the assembly actually uses for the shared counter, as a function
of the maximum identifier pre-existing in the loaded template: the
template is ignored and the constant 100000 is used. -/
def seedUsed (_templateMaxId : ℕ) : ℕ := GLOBAL_ID_SEED

/-- Identifiers issued by the shared counter over a whole run that
performs n issuances (AutomationTarget, AutomationEnvelope, FloatEvent,
Speaker and Volume targets of synthesized groups, ...). -/
def issuedGlobalIds (n : ℕ) : List ℕ := (allocMany n ⟨GLOBAL_ID_SEED⟩).1

/-- GroupTrack identifiers issued by the separate group counter over a run
that synthesizes g groups (next_group_id += 1 once per group). -/
def issuedGroupIds (g : ℕ) : List ℕ := (allocMany g ⟨GROUP_ID_SEED⟩).1

/-- Value written into the NextPointeeId field at serialization time:
the state of the shared counter after its n issuances. -/
def nextPointeeIdWritten (n : ℕ) : ℕ := (allocMany n ⟨GLOBAL_ID_SEED⟩).2.next

/-- allocMany issues consecutive identifiers starting at the seed. -/
theorem allocMany_spec (n s : ℕ) :
    (allocMany n ⟨s⟩).1 = List.range' s n ∧
    (allocMany n ⟨s⟩).2.next = s + n := by
  induction n generalizing s with
  | zero => simp [allocMany]
  | succ n ih =>
      have h1 := (ih (s + 1)).1
      have h2 := (ih (s + 1)).2
      refine ⟨?_, ?_⟩
      · simp only [allocMany, allocId, h1, List.range']
      · simp only [allocMany, allocId, h2]
        omega

/-! ## MOD pitch conversion (mod_parser.py lines 19-59) -/

/-- The fixed Amiga period table of mod_parser.py, in its source order
(dict insertion order, which the min scan follows). -/
def PERIOD_TABLE : List (ℕ × ℤ) :=
  [(856, 48), (808, 49), (762, 50), (720, 51), (678, 52), (640, 53),
   (604, 54), (570, 55), (538, 56), (508, 57), (480, 58), (453, 59),
   (428, 60), (404, 61), (381, 62), (360, 63), (339, 64), (320, 65),
   (302, 66), (285, 67), (269, 68), (254, 69), (240, 70), (226, 71),
   (214, 72), (202, 73), (190, 74), (180, 75), (170, 76), (160, 77),
   (151, 78), (143, 79), (135, 80), (127, 81), (120, 82), (113, 83),
   (107, 84), (101, 85), (95, 86), (90, 87), (85, 88), (80, 89),
   (76, 90), (71, 91), (67, 92), (64, 93), (60, 94), (57, 95)]

/-- Keys of the period table in source order. -/
def periodKeys : List ℕ := PERIOD_TABLE.map Prod.fst

/-- The min scan of period_to_midi: the first table key whose absolute
distance to the period is minimal (Python min keeps the current best
unless a strictly smaller key value appears). -/
def closestPeriod (period : ℕ) : ℕ :=
  match periodKeys with
  | [] => 0
  | k :: ks => ks.foldl (fun best x =>
      if Nat.dist x period < Nat.dist best period then x else best) k

/-- Dict lookup PERIOD_TABLE of a key. -/
def periodTableLookup (k : ℕ) : ℤ :=
  ((PERIOD_TABLE.find? (fun kv => kv.1 = k)).map Prod.snd).getD 0

/-- The closed-form fallback of period_to_midi:
freq = 7093789.2 / (period * 2) and
midi = round (12 * log2 (freq / 440) + 69 + 24).  It is transcendental,
hence modelled over the reals. -/
noncomputable def formulaMidi (period : ℕ) : ℤ :=
  round ((12 : ℝ) * Real.logb 2 ((7093789.2 : ℝ) / ((period : ℝ) * 2) / 440) + 69 + 24)

/-- period_to_midi of mod_parser.py, parameterized by the fallback used
beyond the 10-unit tolerance: None for period 0, the table value of the
closest key within tolerance, the fallback value otherwise. -/
def period_to_midi (fallback : ℕ → ℤ) (period : ℕ) : Option ℤ :=
  if period = 0 then none
  else
    let c := closestPeriod period
    if 10 < Nat.dist c period then some (fallback period)
    else some (periodTableLookup c)

/-! ## MOD cell decoding (read_mod_patterns, mod_parser.py lines 122-212) -/

/-- An entry of the data list of a decoded MOD pattern. -/
structure ModEntry where
  row : ℕ
  channel : ℕ
  note : Option ℤ
  sample : ℕ
  effect : ℕ
  effectParam : ℕ
  volume : ℕ
  sampleOffset : Option ℕ
  isVolumeStop : Bool
deriving DecidableEq, Repr

/-- One raw 4-byte MOD pattern cell together with its grid position. -/
structure ModCellBytes where
  row : ℕ
  channel : ℕ
  b0 : ℕ
  b1 : ℕ
  b2 : ℕ
  b3 : ℕ
deriving DecidableEq, Repr

/-- Decoding of one MOD pattern cell (read_mod_patterns): bit-unpack
period, sample, effect and parameter; keep a real note when period and
sample are positive and the pitch conversion yields a truthy value (the
source tests if midi_note, so a None or a zero pitch drops the cell);
otherwise keep effect-0xF rows with a positive parameter as noteless
entries and effect-0xC parameter-0 rows as volume-stop markers.  Every
real note receives the fixed default volume 64. -/
def decodeModCell (fallback : ℕ → ℤ) (c : ModCellBytes) : Option ModEntry :=
  let sampleHigh := (c.b0 &&& 0xF0) >>> 4
  let periodHigh := (c.b0 &&& 0x0F) <<< 8
  let period := periodHigh ||| c.b1
  let sampleLow := (c.b2 &&& 0xF0) >>> 4
  let sample := (sampleHigh <<< 4) ||| sampleLow
  let effect := c.b2 &&& 0x0F
  let effectParam := c.b3
  let sampleOffset : Option ℕ := if effect = 0x09 then some effectParam else none
  if 0 < period ∧ 0 < sample then
    match period_to_midi fallback period with
    | some midi =>
        if midi ≠ 0 then
          some ⟨c.row, c.channel, some midi, sample, effect, effectParam, 64,
                sampleOffset, false⟩
        else none
    | none => none
  else if effect = 0xF ∧ 0 < effectParam then
    some ⟨c.row, c.channel, none, 0, effect, effectParam, 64, sampleOffset, false⟩
  else if effect = 0xC ∧ effectParam = 0 then
    some ⟨c.row, c.channel, none, 0, effect, effectParam, 0, none, true⟩
  else none

/-- Decoding of the cell list of one MOD pattern. -/
def decodeModPattern (fallback : ℕ → ℤ) (cells : List ModCellBytes) : List ModEntry :=
  cells.filterMap (decodeModCell fallback)

/-! ## Note track builder
(organize_tracks_by_channel, mod_parser.py lines 380-476 and
xm_parser.py lines 347-458) -/

/-- A generic entry of the data list of a decoded pattern, as consumed by
the per-channel collection loop of organize_tracks_by_channel: grid
position, the volume-stop flag, and the note payload the loop builds for
real entries (for MOD, velocity = int(volume / 64 * 127) and no panning;
for XM, pitch = note - 1 + 12, velocity = min 127 (volume * 2) and the
effect-8xx panning). -/
structure CellEv where
  row : ℕ
  channel : ℕ
  isVolumeStop : Bool
  pitch : Option ℤ
  velocity : ℕ
  instrument : ℕ
  panning : Option ℕ
  sampleOffset : Option ℕ
deriving DecidableEq, Repr

/-- A decoded pattern: its row count and its entry list. -/
structure Pattern where
  rows : ℕ
  data : List CellEv
deriving DecidableEq, Repr

/-- Timeline event built from one pattern entry at absolute time t. -/
def cellToEvent (t : ℚ) (e : CellEv) : ChEvent :=
  if e.isVolumeStop then .stop t
  else .note t e.pitch e.velocity e.instrument e.panning e.sampleOffset

/-- The collection loop of organize_tracks_by_channel restricted to one
channel: walk the play order with a time cursor starting at cur, skip
out-of-range pattern indices without advancing the cursor, emit each
matching entry at time cursor + row / 4, and advance the cursor by
rows / 4 per visited pattern. -/
def collectChannel (patterns : List Pattern) (c : ℕ) :
    List ℕ → ℚ → List ChEvent
  | [], _ => []
  | idx :: rest, cur =>
      match patterns[idx]? with
      | none => collectChannel patterns c rest cur
      | some p =>
          ((p.data.filter (fun e => e.channel = c)).map
              (fun e => cellToEvent (cur + (e.row : ℚ) / 4) e))
            ++ collectChannel patterns c rest (cur + (p.rows : ℚ) / 4)

/-- The duration loop of organize_tracks_by_channel on the sorted
timeline of one channel: volume-stop events are skipped; a real note
receives min (next event time - its time) 4 where the next event is the
immediately following timeline entry (the source scan over j breaks at
the first j in both of its branches), and 4 when no entry follows. -/
def durationsAux : List ChEvent → List TrackNote
  | [] => []
  | .stop _ :: rest => durationsAux rest
  | .note t p v inst pan so :: rest =>
      ⟨t, p, v, inst,
        (match rest with
         | [] => (4 : ℚ)
         | e :: _ => min (e.time - t) 4), pan, so⟩ :: durationsAux rest

/-- organize_tracks_by_channel for one channel: collect the timeline from
time 0, sort it by time (Python list.sort is stable; insertion sort by a
total preorder computes the same, unique, stable sort), then compute the
durations.  The source finally groups the resulting notes of the channel
by instrument, which neither drops nor alters any note. -/
def organizeChannel (patterns : List Pattern) (order : List ℕ) (c : ℕ) :
    List TrackNote :=
  durationsAux (List.insertionSort timeLE (collectChannel patterns c order 0))

/-- Grouping by instrument performed at the end of
organize_tracks_by_channel (tracks channel instrument). -/
def tracksForInstrument (notes : List TrackNote) (inst : ℕ) : List TrackNote :=
  notes.filter (fun n => n.instrument = inst)

/-- The MOD variant of the collection loop builds this entry from a
pattern data element: velocity int(volume / 64.0 * 127), exact on these
dyadic floats, is volume * 127 / 64 in natural division. -/
def modCell (e : ModEntry) : CellEv :=
  if e.isVolumeStop then ⟨e.row, e.channel, true, none, 0, 0, none, none⟩
  else ⟨e.row, e.channel, false, e.note, e.volume * 127 / 64, e.sample, none,
        e.sampleOffset⟩

/-- A decoded MOD pattern: 64 rows and its entry list. -/
structure ModPattern where
  rows : ℕ
  data : List ModEntry
deriving DecidableEq, Repr

/-- organize_tracks_by_channel of mod_parser.py for one channel. -/
def organizeModChannel (patterns : List ModPattern) (order : List ℕ) (c : ℕ) :
    List TrackNote :=
  organizeChannel (patterns.map (fun p => ⟨p.rows, p.data.map modCell⟩)) order c

/-- An entry of the data list of a decoded XM pattern
(parse_pattern_data, xm_parser.py lines 54-147). -/
structure XmEntry where
  row : ℕ
  channel : ℕ
  note : ℕ
  instrument : ℕ
  volume : ℕ
  effectType : Option ℕ
  effectParam : Option ℕ
  sampleOffset : Option ℕ
  isVolumeStop : Bool
deriving DecidableEq, Repr

/-- The XM variant of the collection loop builds this entry from a
pattern data element: midi pitch note - 1 + 12, velocity
min 127 (volume * 2), panning from effect 0x08 (defaulting to 128 when
the parameter byte is absent). -/
def xmCell (e : XmEntry) : CellEv :=
  if e.isVolumeStop then ⟨e.row, e.channel, true, none, 0, 0, none, none⟩
  else ⟨e.row, e.channel, false, some ((e.note : ℤ) - 1 + 12),
        min 127 (e.volume * 2), e.instrument,
        (if e.effectType = some 0x08 then some (e.effectParam.getD 128) else none),
        e.sampleOffset⟩

/-- A decoded XM pattern: its row count and its entry list. -/
structure XmPattern where
  rows : ℕ
  data : List XmEntry
deriving DecidableEq, Repr

/-- organize_tracks_by_channel of xm_parser.py for one channel. -/
def organizeXmChannel (patterns : List XmPattern) (order : List ℕ) (c : ℕ) :
    List TrackNote :=
  organizeChannel (patterns.map (fun p => ⟨p.rows, p.data.map xmCell⟩)) order c

/-! ## Merge mode
(merge_and_deduplicate_notes and distribute_notes_to_avoid_overlap,
xm2live.py lines 1371-1453) -/

/-- Round-half-to-even of a rational, the semantics of the Python builtin
round on an exactly represented value. -/
def roundHalfEven (q : ℚ) : ℤ :=
  if q - ⌊q⌋ < 1 / 2 then ⌊q⌋
  else if 1 / 2 < q - ⌊q⌋ then ⌊q⌋ + 1
  else if Even ⌊q⌋ then ⌊q⌋ else ⌊q⌋ + 1

/-- round(t, 4): round to four decimal places. -/
def roundTo4 (q : ℚ) : ℚ := (roundHalfEven (q * 10000) : ℚ) / 10000

/-- Deduplication key of merge_and_deduplicate_notes:
(round(time, 4), midi pitch). -/
def noteKey (n : TrackNote) : ℚ × Option ℤ := (roundTo4 n.time, n.pitch)

/-- The deduplication loop of merge_and_deduplicate_notes: walk the
sorted list keeping a seen set of keys, keeping a note only when its key
has not been seen. -/
def dedupAux (seen : List (ℚ × Option ℤ)) : List TrackNote → List TrackNote
  | [] => []
  | n :: ns =>
      if noteKey n ∈ seen then dedupAux seen ns
      else n :: dedupAux (noteKey n :: seen) ns

/-- merge_and_deduplicate_notes: concatenate the per-channel lists, sort
by time (stable), deduplicate by (round(time, 4), pitch) keeping the
first occurrence. -/
def merge_and_deduplicate_notes (ls : List (List TrackNote)) : List TrackNote :=
  dedupAux [] (List.insertionSort timeLEN ls.flatten)

/-- Specification-side deduplication written from the words of the spec:
keep each first occurrence, dropping every later note with the same key. -/
def dedupKeepFirst : List TrackNote → List TrackNote
  | [] => []
  | n :: ns =>
      n :: dedupKeepFirst (ns.filter (fun m => decide (noteKey m ≠ noteKey n)))
termination_by l => l.length
decreasing_by
  simpa using Nat.lt_succ_of_le (List.length_filter_le _ ns)

/-- The overlap test of distribute_notes_to_avoid_overlap between an
existing note of a lane and the note being placed, with the 0.001-beat
tolerance:
not (note_end <= existing_start + 0.001 or note_start >= existing_end - 0.001). -/
def overlapsB (e n : TrackNote) : Bool :=
  !(decide (n.time + n.duration ≤ e.time + 1 / 1000) ||
    decide (e.time + e.duration - 1 / 1000 ≤ n.time))

/-- A note fits a lane when it overlaps none of the notes already there. -/
def fitsTrack (tr : List TrackNote) (n : TrackNote) : Bool :=
  tr.all (fun e => !overlapsB e n)

/-- Place one note in the first lane it fits, else open a new lane. -/
def placeNote : List (List TrackNote) → TrackNote → List (List TrackNote)
  | [], n => [[n]]
  | tr :: rest, n =>
      if fitsTrack tr n then (tr ++ [n]) :: rest else tr :: placeNote rest n

/-- distribute_notes_to_avoid_overlap: greedy first-fit bin packing in
list order, starting from a single empty lane (the source returns that
single empty lane unchanged on empty input, which the fold also does). -/
def distribute_notes_to_avoid_overlap (ns : List TrackNote) :
    List (List TrackNote) :=
  ns.foldl placeNote [[]]

/-! ## MIDI clip population (update_midi_clip_notes, xm2live.py
lines 718-786) -/

/-- Clip end written into CurrentEnd, Loop/LoopEnd and Loop/OutMarker for
a non-empty note list: max over the note start times, plus 4.0 (the
source computes max of the time fields only; the 0 default of the empty
match arm is never reached because the source returns early on an empty
list). -/
def clipEndTime (notes : List TrackNote) : ℚ :=
  (match notes.map TrackNote.time with
   | [] => 0
   | t :: ts => ts.foldl max t) + 4

/-- Key track content for one midi key: the source groups notes under
int(note) and only keeps keys within 0..127; out-of-range pitches are
dropped. -/
def clipKeyNotes (notes : List TrackNote) (k : ℤ) : List TrackNote :=
  if 0 ≤ k ∧ k ≤ 127 then notes.filter (fun n => n.pitch = some k) else []

/-! ## Claim C3: tempo correction -/

/-- C3: the true BPM written to the output document equals
headerBPM * 6 / headerSpeed (125 with speed 6 gives 125, speed 3 gives
250), and every tempo field equal to the template default is rewritten to
this value. -/
theorem C3_tempo_correction (bpm speed : ℚ) (_hs : speed ≠ 0) (vs : List ℚ) :
    realBPM bpm speed = bpm * 6 / speed ∧
    realBPM 125 6 = 125 ∧
    realBPM 125 3 = 250 ∧
    ∀ i : ℕ, vs[i]? = some TEMPLATE_DEFAULT_TEMPO →
      (rewriteTempoFields (realBPM bpm speed) vs)[i]? =
        some (realBPM bpm speed) := by
  refine ⟨?_, by norm_num [realBPM], by norm_num [realBPM], ?_⟩
  · unfold realBPM
    ring
  · intro i hi
    simp [rewriteTempoFields, List.getElem?_map, hi, rewriteTempoValue]

/-- Witness for C3 at bpm 125, speed 6 and the field list [120, 99]. -/
theorem C3_witness :
    (6 : ℚ) ≠ 0 ∧
    (realBPM 125 6 = 125 * 6 / 6 ∧
     realBPM 125 6 = 125 ∧
     realBPM 125 3 = 250 ∧
     ∀ i : ℕ, ([(120 : ℚ), 99])[i]? = some TEMPLATE_DEFAULT_TEMPO →
       (rewriteTempoFields (realBPM 125 6) [(120 : ℚ), 99])[i]? =
         some (realBPM 125 6)) :=
  ⟨by norm_num, C3_tempo_correction 125 6 (by norm_num) [(120 : ℚ), 99]⟩

/-! ## Claim C6: sample-start automation value -/

/-- C6: for every note carrying the sample-offset effect, the emitted
sample-start automation value equals
clamp ((effectParam * 256 / 2) / sampleLengthInFrames) 0 1, emitted as a
plateau pair at the note start and end; effectParam 128 with sample
length 65536 yields 1/4. -/
theorem C6_sample_offset_value (notes : List TrackNote) (len : ℕ)
    (hlen : 0 < len) (n : TrackNote) (x : ℕ)
    (hn : n ∈ notes) (hx : n.sampleOffset = some x) :
    sampleStartValue x len =
      max 0 (min 1 (((x : ℚ) * 256 / 2) / (len : ℚ))) ∧
    (n.time, sampleStartValue x len) ∈ sampleStartEvents notes len ∧
    (n.time + n.duration, sampleStartValue x len) ∈ sampleStartEvents notes len ∧
    sampleStartValue 128 65536 = 1 / 4 := by
  have hmem : n ∈ List.insertionSort timeLEN notes :=
    ((List.perm_insertionSort timeLEN notes).mem_iff).mpr hn
  refine ⟨?_, ?_, ?_, by norm_num [sampleStartValue]⟩
  · simp [sampleStartValue, hlen]
  · exact List.mem_cons_of_mem _ (List.mem_flatMap.mpr
      ⟨n, hmem, by rw [hx]; exact List.mem_cons_self _ _⟩)
  · exact List.mem_cons_of_mem _ (List.mem_flatMap.mpr
      ⟨n, hmem, by rw [hx]; simp⟩)

/-- A simple concrete note used by several witnesses. -/
def mkNote (t d : ℚ) (pitch : ℤ) : TrackNote :=
  ⟨t, some pitch, 127, 1, d, none, none⟩

/-- A concrete note carrying the 9xx sample-offset effect. -/
def mkOffsetNote (t d : ℚ) (pitch : ℤ) (x : ℕ) : TrackNote :=
  ⟨t, some pitch, 127, 1, d, none, some x⟩

/-- Witness for C6 at one note with effect parameter 128 and sample
length 65536. -/
theorem C6_witness :
    0 < 65536 ∧ mkOffsetNote 0 1 60 128 ∈ [mkOffsetNote 0 1 60 128] ∧
    (mkOffsetNote 0 1 60 128).sampleOffset = some 128 ∧
    (sampleStartValue 128 65536 =
       max 0 (min 1 (((128 : ℚ) * 256 / 2) / (65536 : ℚ))) ∧
     ((mkOffsetNote 0 1 60 128).time, sampleStartValue 128 65536) ∈
       sampleStartEvents [mkOffsetNote 0 1 60 128] 65536 ∧
     ((mkOffsetNote 0 1 60 128).time + (mkOffsetNote 0 1 60 128).duration,
        sampleStartValue 128 65536) ∈
       sampleStartEvents [mkOffsetNote 0 1 60 128] 65536 ∧
     sampleStartValue 128 65536 = 1 / 4) :=
  ⟨by decide, by decide, by decide,
   C6_sample_offset_value [mkOffsetNote 0 1 60 128] 65536 (by decide)
     (mkOffsetNote 0 1 60 128) 128 (by decide) (by decide)⟩

/-! ## Claim C8: decoder failure on unrecognized signature (corrected) -/

/-- C8 counterexample: the unrecognized leading signature XXXX is not
fatal.  The MOD extractor selects the legacy 15-sample/4-channel layout
and returns normally, and the XM extractor proceeds whatever its leading
bytes are; neither path produces a FormatError. -/
theorem C8_counterexample :
    "XXXX" ∉ RECOGNIZED_SIGNATURES ∧
    modSignatureDispatch "XXXX" = Except.ok (15, 4) ∧
    modSignatureDispatch "XXXX" ≠ Except.error FormatError.unrecognizedSignature ∧
    xmSignatureDispatch "definitely not an XM id text" = Except.ok () := by
  refine ⟨by decide, ?_, ?_, rfl⟩
  · simp [modSignatureDispatch, modNumSamples, modNumChannels, RECOGNIZED_SIGNATURES]
  · simp [modSignatureDispatch]

/-- C8 amended: for every input file the extractors return the
(samples, patterns, module-info) data without failing; an unrecognized
leading signature is not fatal: the MOD extractor falls back to the
legacy 15-sample/4-channel layout and the XM extractor never inspects
its leading bytes. -/
theorem C8_decoder_totality (sig idText : String) (h : sig ∉ RECOGNIZED_SIGNATURES) :
    modSignatureDispatch sig = Except.ok (15, 4) ∧
    (∀ s : String, ∃ v, modSignatureDispatch s = Except.ok v) ∧
    xmSignatureDispatch idText = Except.ok () := by
  refine ⟨?_, fun s => ⟨_, rfl⟩, rfl⟩
  simp only [RECOGNIZED_SIGNATURES, List.mem_cons, List.not_mem_nil, or_false, not_or] at h
  obtain ⟨h1, h2, h3, h4, h5, h6, h7⟩ := h
  simp [modSignatureDispatch, modNumSamples, modNumChannels, RECOGNIZED_SIGNATURES,
    h1, h2, h3, h4, h5, h6, h7]

/-- Witness for C8 at the unrecognized signature XXXX. -/
theorem C8_witness :
    "XXXX" ∉ RECOGNIZED_SIGNATURES ∧
    (modSignatureDispatch "XXXX" = Except.ok (15, 4) ∧
     (∀ s : String, ∃ v, modSignatureDispatch s = Except.ok v) ∧
     xmSignatureDispatch "Extended Module: " = Except.ok ()) :=
  ⟨by decide, C8_decoder_totality "XXXX" "Extended Module: " (by decide)⟩

/-! ## Claim C1: identifier allocation (corrected) -/

/-- C1 counterexample: against a template whose maximum pre-existing
identifier is 100000, the shared counter is seeded at 100000 - not past
the template maximum - and its first issued identifier collides with
that pre-existing identifier; moreover the GroupTrack identifier 10000
comes from a separate counter, not from the shared allocator, whose
identifiers all start at 100000. -/
theorem C1_counterexample :
    seedUsed 100000 = 100000 ∧
    ¬ 100000 < seedUsed 100000 ∧
    100000 ∈ issuedGlobalIds 1 ∧
    10000 ∈ issuedGroupIds 1 ∧
    10000 ∉ issuedGlobalIds 1 ∧
    10000 < GLOBAL_ID_SEED := by
  decide

/-- C1 amended: automation-related identifiers are issued by a counter
with the fixed seed 100000 and GroupTrack identifiers by a separate
counter with the fixed seed 10000, both independent of the template; the
shared counter state at serialization time is recorded into the
NextPointeeId field and is strictly beyond every identifier that counter
issued; the issued identifiers are mutually distinct whenever at most
90000 groups are synthesized, and they collide with no pre-existing
template identifier provided every template identifier is below 10000. -/
theorem C1_amended_identifier_allocation (n g : ℕ) (hg : g ≤ 90000)
    (templateIds : List ℕ) (hT : ∀ t ∈ templateIds, t < GROUP_ID_SEED) :
    nextPointeeIdWritten n = GLOBAL_ID_SEED + n ∧
    (∀ i ∈ issuedGlobalIds n, i < nextPointeeIdWritten n) ∧
    (issuedGlobalIds n ++ issuedGroupIds g).Nodup ∧
    (∀ t ∈ templateIds, t ∉ issuedGlobalIds n ++ issuedGroupIds g) := by
  have hglob : issuedGlobalIds n = List.range' GLOBAL_ID_SEED n :=
    (allocMany_spec n GLOBAL_ID_SEED).1
  have hgrp : issuedGroupIds g = List.range' GROUP_ID_SEED g :=
    (allocMany_spec g GROUP_ID_SEED).1
  have hnext : nextPointeeIdWritten n = GLOBAL_ID_SEED + n :=
    (allocMany_spec n GLOBAL_ID_SEED).2
  have hmemG : ∀ i, i ∈ issuedGlobalIds n ↔ GLOBAL_ID_SEED ≤ i ∧ i < GLOBAL_ID_SEED + n := by
    intro i
    rw [hglob]
    exact List.mem_range'_1
  have hmemP : ∀ i, i ∈ issuedGroupIds g ↔ GROUP_ID_SEED ≤ i ∧ i < GROUP_ID_SEED + g := by
    intro i
    rw [hgrp]
    exact List.mem_range'_1
  refine ⟨hnext, ?_, ?_, ?_⟩
  · intro i hi
    rw [hnext]
    exact ((hmemG i).mp hi).2
  · rw [hglob, hgrp]
    refine (List.nodup_append.mpr ⟨List.nodup_range' _ _, List.nodup_range' _ _, ?_⟩)
    intro a ha hb
    have h1 := (List.mem_range'_1.mp ha).1
    have h2 := (List.mem_range'_1.mp hb).2
    simp only [GLOBAL_ID_SEED, GROUP_ID_SEED] at h1 h2
    omega
  · intro t ht
    have h := hT t ht
    simp only [GROUP_ID_SEED] at h
    rw [List.mem_append, hmemG t, hmemP t]
    simp only [GLOBAL_ID_SEED, GROUP_ID_SEED]
    omega

/-- Witness for C1 amended at 3 shared issuances, 2 groups, and a
template whose identifiers are 1, 2 and 3. -/
theorem C1_witness :
    (2 ≤ 90000 ∧ ∀ t ∈ [1, 2, 3], t < GROUP_ID_SEED) ∧
    (nextPointeeIdWritten 3 = GLOBAL_ID_SEED + 3 ∧
     (∀ i ∈ issuedGlobalIds 3, i < nextPointeeIdWritten 3) ∧
     (issuedGlobalIds 3 ++ issuedGroupIds 2).Nodup ∧
     (∀ t ∈ [1, 2, 3], t ∉ issuedGlobalIds 3 ++ issuedGroupIds 2)) :=
  ⟨⟨by decide, by decide⟩,
   C1_amended_identifier_allocation 3 2 (by decide) [1, 2, 3] (by decide)⟩

/-! ## Claim C4: MOD pitch conversion -/

/-- A left fold with the keep-unless-strictly-smaller step (the Python
min scan) returns an element of the candidate list that minimizes the
key. -/
theorem foldl_argmin_spec (f : ℕ → ℕ) :
    ∀ (ks : List ℕ) (k : ℕ),
      (ks.foldl (fun best x => if f x < f best then x else best) k ∈ k :: ks) ∧
      ∀ x ∈ k :: ks,
        f (ks.foldl (fun best x => if f x < f best then x else best) k) ≤ f x := by
  intro ks
  induction ks with
  | nil =>
      intro k
      refine ⟨List.mem_cons_self _ _, ?_⟩
      intro x hx
      have hxk : x = k := by simpa using hx
      rw [hxk]
      exact le_refl _
  | cons a ks ih =>
      intro k
      rw [List.foldl_cons]
      set b := if f a < f k then a else k with hb
      have hmemb : b = a ∨ b = k := by
        rw [hb]
        split
        · exact Or.inl rfl
        · exact Or.inr rfl
      have hba : f b ≤ f a := by
        rw [hb]
        split
        · exact le_refl _
        · next hc => exact Nat.le_of_not_lt hc
      have hbk : f b ≤ f k := by
        rw [hb]
        split
        · next hc => exact le_of_lt hc
        · exact le_refl _
      obtain ⟨hmem, hle⟩ := ih b
      constructor
      · rcases List.mem_cons.mp hmem with h1 | h1
        · rcases hmemb with h2 | h2
          · rw [h1, h2]
            exact List.mem_cons_of_mem _ (List.mem_cons_self _ _)
          · rw [h1, h2]
            exact List.mem_cons_self _ _
        · exact List.mem_cons_of_mem _ (List.mem_cons_of_mem _ h1)
      · intro x hx
        have hres := hle b (List.mem_cons_self _ _)
        rcases List.mem_cons.mp hx with h1 | h1
        · rw [h1]
          exact le_trans hres hbk
        · rcases List.mem_cons.mp h1 with h2 | h2
          · rw [h2]
            exact le_trans hres hba
          · exact hle x (List.mem_cons_of_mem _ h2)

/-- The min scan of period_to_midi returns a table key of minimal
absolute distance to the period. -/
theorem closestPeriod_spec (p : ℕ) :
    closestPeriod p ∈ periodKeys ∧
    ∀ k ∈ periodKeys, Nat.dist (closestPeriod p) p ≤ Nat.dist k p := by
  have hkeys : periodKeys = 856 :: periodKeys.tail := by rfl
  have hdef : closestPeriod p =
      (periodKeys.tail).foldl
        (fun best x => if Nat.dist x p < Nat.dist best p then x else best) 856 := by
    rfl
  have h := foldl_argmin_spec (fun x => Nat.dist x p) periodKeys.tail 856
  constructor
  · rw [hdef, hkeys]
    exact h.1
  · intro k hk
    rw [hdef]
    exact h.2 k (by rw [← hkeys]; exact hk)

/-- Within the 10-unit tolerance the table value of the closest key is
returned. -/
theorem period_to_midi_within (fb : ℕ → ℤ) (p : ℕ) (hp : p ≠ 0)
    (h : Nat.dist (closestPeriod p) p ≤ 10) :
    period_to_midi fb p = some (periodTableLookup (closestPeriod p)) := by
  unfold period_to_midi
  rw [if_neg hp, if_neg (by omega)]

/-- Beyond the 10-unit tolerance the fallback formula value is
returned. -/
theorem period_to_midi_beyond (fb : ℕ → ℤ) (p : ℕ) (hp : p ≠ 0)
    (h : 10 < Nat.dist (closestPeriod p) p) :
    period_to_midi fb p = some (fb p) := by
  unfold period_to_midi
  rw [if_neg hp, if_pos h]

set_option maxRecDepth 8000 in
/-- C4: for every nonzero period, period_to_midi returns the table value
of the nearest table key when that key is within 10 units, and the
closed-form round (12 * log2 (freq / 440) + 69 + 24) fallback with
freq = 7093789.2 / (2 * period) otherwise; period 856 gives midi 48
(exact hit), period 860 gives midi 48 (nearest within tolerance), and
period 2000 is computed by the formula, not the table. -/
theorem C4_period_to_midi (p : ℕ) (hp : p ≠ 0) :
    (closestPeriod p ∈ periodKeys ∧
      ∀ k ∈ periodKeys, Nat.dist (closestPeriod p) p ≤ Nat.dist k p) ∧
    (Nat.dist (closestPeriod p) p ≤ 10 →
      period_to_midi formulaMidi p = some (periodTableLookup (closestPeriod p))) ∧
    (10 < Nat.dist (closestPeriod p) p →
      period_to_midi formulaMidi p = some (formulaMidi p)) ∧
    period_to_midi formulaMidi 856 = some 48 ∧
    period_to_midi formulaMidi 860 = some 48 ∧
    closestPeriod 860 = 856 ∧
    period_to_midi formulaMidi 2000 = some (formulaMidi 2000) ∧
    10 < Nat.dist (closestPeriod 2000) 2000 := by
  refine ⟨closestPeriod_spec p,
    period_to_midi_within formulaMidi p hp,
    period_to_midi_beyond formulaMidi p hp, ?_, ?_, by decide, ?_, by decide⟩
  · rw [period_to_midi_within formulaMidi 856 (by decide) (by decide)]
    decide
  · rw [period_to_midi_within formulaMidi 860 (by decide) (by decide)]
    decide
  · exact period_to_midi_beyond formulaMidi 2000 (by decide) (by decide)

set_option maxRecDepth 8000 in
/-- Witness for C4 at period 856. -/
theorem C4_witness :
    (856 : ℕ) ≠ 0 ∧
    ((closestPeriod 856 ∈ periodKeys ∧
      ∀ k ∈ periodKeys, Nat.dist (closestPeriod 856) 856 ≤ Nat.dist k 856) ∧
     (Nat.dist (closestPeriod 856) 856 ≤ 10 →
       period_to_midi formulaMidi 856 =
         some (periodTableLookup (closestPeriod 856))) ∧
     (10 < Nat.dist (closestPeriod 856) 856 →
       period_to_midi formulaMidi 856 = some (formulaMidi 856)) ∧
     period_to_midi formulaMidi 856 = some 48 ∧
     period_to_midi formulaMidi 860 = some 48 ∧
     closestPeriod 860 = 856 ∧
     period_to_midi formulaMidi 2000 = some (formulaMidi 2000) ∧
     10 < Nat.dist (closestPeriod 2000) 2000) :=
  ⟨by decide, C4_period_to_midi 856 (by decide)⟩

/-! ## Claim C5: merge mode -/

/-- Unfolding equation of dedupKeepFirst on a cons cell. -/
theorem dedupKeepFirst_cons (n : TrackNote) (ns : List TrackNote) :
    dedupKeepFirst (n :: ns) =
      n :: dedupKeepFirst (ns.filter (fun m => decide (noteKey m ≠ noteKey n))) := by
  rw [dedupKeepFirst.eq_def]

/-- The seen-set deduplication loop of merge_and_deduplicate_notes agrees
with the specification-side dedupKeepFirst on the notes whose key has not
yet been seen. -/
theorem dedupAux_eq_keepFirst :
    ∀ (l : List TrackNote) (seen : List (ℚ × Option ℤ)),
      dedupAux seen l =
        dedupKeepFirst (l.filter (fun n => decide (noteKey n ∉ seen))) := by
  intro l
  induction l with
  | nil =>
      intro seen
      simp [dedupAux, dedupKeepFirst]
  | cons n ns ih =>
      intro seen
      by_cases h : noteKey n ∈ seen
      · rw [dedupAux, if_pos h, List.filter_cons, if_neg (by simp [h])]
        exact ih seen
      · rw [dedupAux, if_neg h, List.filter_cons, if_pos (by simp [h])]
        rw [dedupKeepFirst_cons]
        congr 1
        rw [ih (noteKey n :: seen), List.filter_filter]
        congr 1
        apply List.filter_congr
        intro m _
        simp [List.mem_cons, not_or, Bool.and_comm]

/-- Greedy placement over a single lane whose occupants conflict with
nothing that follows: everything stays in that single lane, in order. -/
theorem foldl_placeNote_single :
    ∀ (ns : List TrackNote) (p : List TrackNote),
      ns.Pairwise (fun a b => overlapsB a b = false) →
      (∀ a ∈ p, ∀ b ∈ ns, overlapsB a b = false) →
      ns.foldl placeNote [p] = [p ++ ns] := by
  intro ns
  induction ns with
  | nil =>
      intro p _ _
      simp
  | cons n ns ih =>
      intro p hns hp
      have hpair := List.pairwise_cons.mp hns
      have hfit : fitsTrack p n = true := by
        unfold fitsTrack
        rw [List.all_eq_true]
        intro e he
        rw [hp e he n (List.mem_cons_self _ _)]
        rfl
      have hstep : placeNote [p] n = [p ++ [n]] := by
        unfold placeNote
        rw [if_pos hfit]
      rw [List.foldl_cons, hstep, ih (p ++ [n]) hpair.2 ?_]
      · rw [List.append_assoc]
        rfl
      · intro a ha b hb
        rcases List.mem_append.mp ha with h1 | h1
        · exact hp a h1 b (List.mem_cons_of_mem _ hb)
        · have : a = n := by simpa using h1
          rw [this]
          exact hpair.1 b hb

/-- C5: in merge mode, the per-instrument channel streams are flattened,
sorted by time, and deduplicated by (time rounded to 1e-4, pitch) keeping
the first occurrence; the remaining notes are packed greedily in order,
each into the first lane with no overlap under the 0.001 tolerance, else
a new lane; a pairwise non-overlapping input yields the single original
lane in time order, and two notes both spanning the beat interval 0 to 1
yield two lanes. -/
theorem C5_merge_mode (ls : List (List TrackNote)) (ns : List TrackNote)
    (hns : ns.Pairwise (fun a b => overlapsB a b = false)) :
    merge_and_deduplicate_notes ls =
      dedupKeepFirst (List.insertionSort timeLEN ls.flatten) ∧
    distribute_notes_to_avoid_overlap ns = [ns] ∧
    distribute_notes_to_avoid_overlap [mkNote 0 1 60, mkNote 0 1 62] =
      [[mkNote 0 1 60], [mkNote 0 1 62]] := by
  refine ⟨?_, ?_, ?_⟩
  · unfold merge_and_deduplicate_notes
    rw [dedupAux_eq_keepFirst]
    congr 1
    simp
  · unfold distribute_notes_to_avoid_overlap
    rw [foldl_placeNote_single ns [] hns (by intro a ha; simp at ha)]
    rfl
  · simp [distribute_notes_to_avoid_overlap, placeNote, fitsTrack, overlapsB,
      mkNote]
    norm_num

/-- Witness for C5 at one flattened lane list and a two-note
non-overlapping stream. -/
theorem C5_witness :
    ([mkNote 0 1 60, mkNote 2 1 60] : List TrackNote).Pairwise
      (fun a b => overlapsB a b = false) ∧
    (merge_and_deduplicate_notes [[mkNote 0 1 60]] =
       dedupKeepFirst
         (List.insertionSort timeLEN ([[mkNote 0 1 60]] : List (List TrackNote)).flatten) ∧
     distribute_notes_to_avoid_overlap [mkNote 0 1 60, mkNote 2 1 60] =
       [[mkNote 0 1 60, mkNote 2 1 60]] ∧
     distribute_notes_to_avoid_overlap [mkNote 0 1 60, mkNote 0 1 62] =
       [[mkNote 0 1 60], [mkNote 0 1 62]]) :=
  ⟨by
    simp only [List.pairwise_cons, List.mem_singleton, List.not_mem_nil,
      false_implies, implies_true, and_true, List.Pairwise.nil]
    intro b hb
    rw [hb]
    simp [overlapsB, mkNote]
    norm_num,
   C5_merge_mode [[mkNote 0 1 60]] [mkNote 0 1 60, mkNote 2 1 60]
     (by
       simp only [List.pairwise_cons, List.mem_singleton, List.not_mem_nil,
         false_implies, implies_true, and_true, List.Pairwise.nil]
       intro b hb
       rw [hb]
       simp [overlapsB, mkNote]
       norm_num)⟩

/-! ## Claim C7: MIDI clip population (corrected) -/

/-- A left max fold returns its seed or a list element, and bounds the
seed and every element from above. -/
theorem foldl_max_spec (ts : List ℚ) (t : ℚ) :
    (ts.foldl max t = t ∨ ts.foldl max t ∈ ts) ∧
    t ≤ ts.foldl max t ∧ ∀ x ∈ ts, x ≤ ts.foldl max t := by
  induction ts generalizing t with
  | nil => simp
  | cons a ts ih =>
      obtain ⟨h1, h2, h3⟩ := ih (max t a)
      rw [List.foldl_cons]
      refine ⟨?_, le_trans (le_max_left t a) h2, ?_⟩
      · rcases h1 with h | h
        · rcases max_choice t a with hm | hm
          · left
            rw [h, hm]
          · right
            rw [h, hm]
            exact List.mem_cons_self _ _
        · right
          exact List.mem_cons_of_mem _ h
      · intro x hx
        rcases List.mem_cons.mp hx with rfl | hx2
        · exact le_trans (le_max_right t x) h2
        · exact h3 x hx2

/-- C7 counterexample: a single note starting at beat 0 with duration 1.
The source writes clip end 0 + 4 = 4, while the end of the latest note
event plus 4 beats is 0 + 1 + 4 = 5. -/
theorem C7_counterexample :
    clipEndTime [mkNote 0 1 60] = 4 ∧
    (mkNote 0 1 60).time + (mkNote 0 1 60).duration + 4 = 5 ∧
    clipEndTime [mkNote 0 1 60] ≠
      (mkNote 0 1 60).time + (mkNote 0 1 60).duration + 4 := by
  refine ⟨?_, ?_, ?_⟩
  · simp [clipEndTime, mkNote]
  · simp [mkNote]
    norm_num
  · simp [clipEndTime, mkNote]

/-- C7 amended: for every non-empty note list populated into a clip, the
clip length (clip end, loop end, out marker) equals the latest note
START time plus 4 beats - not the end of the latest note event plus 4 -
and the notes whose integer pitch lies within 0..127 are grouped by
pitch into key tracks, out-of-range pitches being dropped. -/
theorem C7_clip_population (notes : List TrackNote) (h : notes ≠ []) :
    (∃ n ∈ notes, clipEndTime notes = n.time + 4 ∧
      ∀ m ∈ notes, m.time ≤ n.time) ∧
    (∀ (k : ℤ) (n : TrackNote),
      n ∈ clipKeyNotes notes k ↔
        (0 ≤ k ∧ k ≤ 127 ∧ n ∈ notes ∧ n.pitch = some k)) := by
  constructor
  · cases notes with
    | nil => exact absurd rfl h
    | cons n0 rest =>
        obtain ⟨h1, h2, h3⟩ := foldl_max_spec (rest.map TrackNote.time) n0.time
        have hclip : clipEndTime (n0 :: rest) =
            (rest.map TrackNote.time).foldl max n0.time + 4 := by
          simp [clipEndTime]
        rcases h1 with he | he
        · refine ⟨n0, List.mem_cons_self _ _, by rw [hclip, he], ?_⟩
          intro m hm
          rcases List.mem_cons.mp hm with rfl | hm2
          · exact le_refl _
          · exact le_of_le_of_eq (h3 m.time (List.mem_map_of_mem _ hm2)) he
        · obtain ⟨m, hm, hmt⟩ := List.mem_map.mp he
          refine ⟨m, List.mem_cons_of_mem _ hm, by rw [hclip, hmt], ?_⟩
          intro q hq
          rcases List.mem_cons.mp hq with rfl | hq2
          · exact le_of_le_of_eq h2 hmt.symm
          · exact le_of_le_of_eq (h3 q.time (List.mem_map_of_mem _ hq2)) hmt.symm
  · intro k n
    by_cases hk : 0 ≤ k ∧ k ≤ 127
    · simp only [clipKeyNotes, if_pos hk, List.mem_filter, decide_eq_true_eq]
      tauto
    · simp only [clipKeyNotes, if_neg hk, List.not_mem_nil, false_iff]
      tauto

/-- Witness for C7 amended at a two-note list. -/
theorem C7_witness :
    ([mkNote 0 1 60, mkNote 2 1 62] : List TrackNote) ≠ [] ∧
    ((∃ n ∈ [mkNote 0 1 60, mkNote 2 1 62],
        clipEndTime [mkNote 0 1 60, mkNote 2 1 62] = n.time + 4 ∧
        ∀ m ∈ [mkNote 0 1 60, mkNote 2 1 62], m.time ≤ n.time) ∧
     (∀ (k : ℤ) (n : TrackNote),
        n ∈ clipKeyNotes [mkNote 0 1 60, mkNote 2 1 62] k ↔
          (0 ≤ k ∧ k ≤ 127 ∧ n ∈ [mkNote 0 1 60, mkNote 2 1 62] ∧
           n.pitch = some k))) :=
  ⟨by simp, C7_clip_population [mkNote 0 1 60, mkNote 2 1 62] (by simp)⟩

/-! ## Claim C2: note durations -/

/-- Real-note discriminator of a timeline entry. -/
def isNoteEv : ChEvent → Bool
  | .stop _ => false
  | .note _ _ _ _ _ _ => true

/-- Number of real notes in a timeline prefix; the builder emits one
TrackNote per real note, in order. -/
def countNotes (l : List ChEvent) : ℕ := (l.filter isNoteEv).length

/-- Duration assigned to a note at time t given the immediately following
timeline entry: min 4 (gap to it), and 4 when nothing follows (the
source computes min (gap) 4, the same value). -/
def nextDuration (t : ℚ) : Option ChEvent → ℚ
  | none => 4
  | some e => min 4 (e.time - t)

/-- The builder assigns the i-th timeline entry, when it is a real note,
the duration determined by the (i+1)-th entry, and copies its payload. -/
theorem durationsAux_get :
    ∀ (l : List ChEvent) (i : ℕ) (t : ℚ) (p : Option ℤ) (v inst : ℕ)
      (pan so : Option ℕ),
      l[i]? = some (ChEvent.note t p v inst pan so) →
      (durationsAux l)[countNotes (l.take i)]? =
        some ⟨t, p, v, inst, nextDuration t l[i + 1]?, pan, so⟩ := by
  intro l
  induction l with
  | nil =>
      intro i t p v inst pan so h
      simp at h
  | cons e rest ih =>
      intro i t p v inst pan so h
      cases i with
      | zero =>
          simp only [List.getElem?_cons_zero, Option.some.injEq] at h
          subst h
          simp only [List.take_zero, countNotes, List.filter_nil,
            List.length_nil, durationsAux, List.getElem?_cons_zero,
            Option.some.injEq]
          cases rest with
          | nil => simp [nextDuration]
          | cons r rs =>
              simp [nextDuration, min_comm]
      | succ j =>
          simp only [List.getElem?_cons_succ] at h
          have hnext : (e :: rest)[j + 1 + 1]? = rest[j + 1]? :=
            List.getElem?_cons_succ
          rw [hnext]
          have htake : (e :: rest).take (j + 1) = e :: rest.take j :=
            List.take_succ_cons
          rw [htake]
          cases e with
          | stop te =>
              have hcount : countNotes (ChEvent.stop te :: rest.take j) =
                  countNotes (rest.take j) := by
                simp [countNotes, List.filter_cons, isNoteEv]
              rw [hcount]
              have hd : durationsAux (ChEvent.stop te :: rest) = durationsAux rest := rfl
              rw [hd]
              exact ih j t p v inst pan so h
          | note te pe ve ie pane soe =>
              have hcount : countNotes (ChEvent.note te pe ve ie pane soe :: rest.take j) =
                  countNotes (rest.take j) + 1 := by
                simp [countNotes, List.filter_cons, isNoteEv, Nat.add_comm]
              rw [hcount]
              obtain ⟨x, hd⟩ :
                  ∃ x, durationsAux (ChEvent.note te pe ve ie pane soe :: rest) =
                    x :: durationsAux rest := ⟨_, rfl⟩
              rw [hd]
              rw [List.getElem?_cons_succ]
              exact ih j t p v inst pan so h

/-- A real-note cell on channel 0 with pitch 60, used by concrete
builder runs. -/
def nCell (row : ℕ) : CellEv := ⟨row, 0, false, some 60, 127, 1, none, none⟩

/-- A volume-stop cell on channel 0, used by concrete builder runs. -/
def sCell (row : ℕ) : CellEv := ⟨row, 0, true, none, 0, 0, none, none⟩

/-- C2: the note track builder assigns each real note the duration
min 4 (next same-channel event time - note time) - the next event being
a real note or a volume-stop marker - and 4 when no later event exists;
same-channel note rows 0, 4 and 12 of a 64-row pattern (note times 0, 1
and 3 beats) with no trailing event yield durations 1, 2 and 4, and a
note at beat 0 followed by a volume stop at beat 0.5 receives duration
0.5 rather than the 10-beat gap to the next real note. -/
theorem C2_note_durations (l : List ChEvent) (i : ℕ) (t : ℚ) (p : Option ℤ)
    (v inst : ℕ) (pan so : Option ℕ)
    (h : l[i]? = some (ChEvent.note t p v inst pan so)) :
    (durationsAux l)[countNotes (l.take i)]? =
      some ⟨t, p, v, inst, nextDuration t l[i + 1]?, pan, so⟩ ∧
    organizeChannel [⟨64, [nCell 0, nCell 4, nCell 12]⟩] [0] 0 =
      [⟨0, some 60, 127, 1, 1, none, none⟩,
       ⟨1, some 60, 127, 1, 2, none, none⟩,
       ⟨3, some 60, 127, 1, 4, none, none⟩] ∧
    organizeChannel [⟨64, [nCell 0, sCell 2, nCell 40]⟩] [0] 0 =
      [⟨0, some 60, 127, 1, 1 / 2, none, none⟩,
       ⟨10, some 60, 127, 1, 4, none, none⟩] := by
  refine ⟨durationsAux_get l i t p v inst pan so h, ?_, ?_⟩
  · simp [organizeChannel, collectChannel, cellToEvent, nCell, sCell,
      List.insertionSort, List.orderedInsert, timeLE, ChEvent.time, durationsAux]
    norm_num [timeLE, ChEvent.time, durationsAux]
  · simp [organizeChannel, collectChannel, cellToEvent, nCell, sCell,
      List.insertionSort, List.orderedInsert, timeLE, ChEvent.time, durationsAux]
    norm_num [timeLE, ChEvent.time, durationsAux]

/-- Witness for C2 at a two-entry timeline. -/
theorem C2_witness :
    ([ChEvent.note 0 (some 60) 127 1 none none,
      ChEvent.note 1 (some 60) 127 1 none none] : List ChEvent)[0]? =
      some (ChEvent.note 0 (some 60) 127 1 none none) ∧
    ((durationsAux [ChEvent.note 0 (some 60) 127 1 none none,
        ChEvent.note 1 (some 60) 127 1 none none])[countNotes
          (([ChEvent.note 0 (some 60) 127 1 none none,
             ChEvent.note 1 (some 60) 127 1 none none] : List ChEvent).take 0)]? =
        some ⟨0, some 60, 127, 1,
          nextDuration 0 ([ChEvent.note 0 (some 60) 127 1 none none,
            ChEvent.note 1 (some 60) 127 1 none none] : List ChEvent)[0 + 1]?,
          none, none⟩ ∧
     organizeChannel [⟨64, [nCell 0, nCell 4, nCell 12]⟩] [0] 0 =
       [⟨0, some 60, 127, 1, 1, none, none⟩,
        ⟨1, some 60, 127, 1, 2, none, none⟩,
        ⟨3, some 60, 127, 1, 4, none, none⟩] ∧
     organizeChannel [⟨64, [nCell 0, sCell 2, nCell 40]⟩] [0] 0 =
       [⟨0, some 60, 127, 1, 1 / 2, none, none⟩,
        ⟨10, some 60, 127, 1, 4, none, none⟩]) :=
  ⟨rfl, C2_note_durations _ 0 0 (some 60) 127 1 none none rfl⟩

/-! ## Claim C9: builder invariants -/

/-- The timeline event built from a cell carries the given time. -/
theorem cellToEvent_time (t : ℚ) (e : CellEv) : (cellToEvent t e).time = t := by
  unfold cellToEvent
  split <;> rfl

/-- Every event collected from a cursor position cur has time at least
cur. -/
theorem collectChannel_time_lb (patterns : List Pattern) (c : ℕ) :
    ∀ (order : List ℕ) (cur : ℚ) (e : ChEvent),
      e ∈ collectChannel patterns c order cur → cur ≤ e.time := by
  intro order
  induction order with
  | nil =>
      intro cur e he
      simp [collectChannel] at he
  | cons idx rest ih =>
      intro cur e he
      cases hidx : patterns[idx]? with
      | none =>
          rw [collectChannel, hidx] at he
          exact ih cur e he
      | some p =>
          rw [collectChannel, hidx] at he
          rcases List.mem_append.mp he with h1 | h1
          · obtain ⟨a, _, rfl⟩ := List.mem_map.mp h1
            rw [cellToEvent_time]
            have : (0 : ℚ) ≤ (a.row : ℚ) / 4 := by positivity
            linarith
          · have h2 := ih (cur + (p.rows : ℚ) / 4) e h1
            have : (0 : ℚ) ≤ (p.rows : ℚ) / 4 := by positivity
            linarith

/-- Under the decoder invariants (each row index below the pattern row
count, and distinct rows per channel within one pattern), the collected
per-channel timeline has pairwise distinct times. -/
theorem collectChannel_pairwise (patterns : List Pattern) (c : ℕ)
    (H1 : ∀ p ∈ patterns, ∀ e ∈ p.data, e.row < p.rows)
    (H2 : ∀ p ∈ patterns,
      p.data.Pairwise (fun a b => a.channel = b.channel → a.row ≠ b.row)) :
    ∀ (order : List ℕ) (cur : ℚ),
      (collectChannel patterns c order cur).Pairwise
        (fun a b => a.time ≠ b.time) := by
  intro order
  induction order with
  | nil =>
      intro cur
      simp [collectChannel]
  | cons idx rest ih =>
      intro cur
      cases hidx : patterns[idx]? with
      | none =>
          rw [collectChannel, hidx]
          exact ih cur
      | some p =>
          have hpmem : p ∈ patterns := List.getElem?_mem hidx
          rw [collectChannel, hidx]
          rw [List.pairwise_append]
          refine ⟨?_, ih _, ?_⟩
          · rw [List.pairwise_map]
            have hfil : (p.data.filter (fun e => decide (e.channel = c))).Pairwise
                (fun a b => a.channel = b.channel → a.row ≠ b.row) :=
              List.Pairwise.filter _ (H2 p hpmem)
            have hrows : (p.data.filter (fun e => decide (e.channel = c))).Pairwise
                (fun a b => a.row ≠ b.row) := by
              refine List.Pairwise.imp_of_mem ?_ hfil
              intro a b ha hb hr
              have hac : a.channel = c := by
                simpa using (List.mem_filter.mp ha).2
              have hbc : b.channel = c := by
                simpa using (List.mem_filter.mp hb).2
              exact hr (hac.trans hbc.symm)
            refine List.Pairwise.imp ?_ hrows
            intro a b hab
            rw [cellToEvent_time, cellToEvent_time]
            intro heq
            apply hab
            have h4 : (a.row : ℚ) = (b.row : ℚ) := by
              have : (a.row : ℚ) / 4 = (b.row : ℚ) / 4 := by linarith
              linarith
            exact_mod_cast h4
          · intro a ha b hb
            obtain ⟨ea, hea, rfl⟩ := List.mem_map.mp ha
            have hrow : ea.row < p.rows :=
              H1 p hpmem ea (List.mem_filter.mp hea).1
            have hlt : (cellToEvent (cur + (ea.row : ℚ) / 4) ea).time <
                cur + (p.rows : ℚ) / 4 := by
              rw [cellToEvent_time]
              have : (ea.row : ℚ) < (p.rows : ℚ) := by exact_mod_cast hrow
              linarith
            have hge := collectChannel_time_lb patterns c rest
              (cur + (p.rows : ℚ) / 4) b hb
            exact ne_of_lt (lt_of_lt_of_le hlt hge)

/-- On a timeline with strictly increasing times and nonnegative times,
every note the duration loop emits has nonnegative time and positive
duration. -/
theorem durationsAux_pos :
    ∀ (l : List ChEvent),
      l.Pairwise (fun a b => a.time < b.time) →
      (∀ e ∈ l, 0 ≤ e.time) →
      ∀ n ∈ durationsAux l, 0 ≤ n.time ∧ 0 < n.duration := by
  intro l
  induction l with
  | nil =>
      intro _ _ n hn
      simp [durationsAux] at hn
  | cons e rest ih =>
      intro hpw h0 n hn
      have hpc := List.pairwise_cons.mp hpw
      cases e with
      | stop te =>
          have hd : durationsAux (ChEvent.stop te :: rest) = durationsAux rest := rfl
          rw [hd] at hn
          exact ih hpc.2 (fun x hx => h0 x (List.mem_cons_of_mem _ hx)) n hn
      | note te pe ve ie pane soe =>
          cases rest with
          | nil =>
              have hd : durationsAux [ChEvent.note te pe ve ie pane soe] =
                  [⟨te, pe, ve, ie, 4, pane, soe⟩] := rfl
              rw [hd] at hn
              have hx : n = ⟨te, pe, ve, ie, 4, pane, soe⟩ := by simpa using hn
              rw [hx]
              exact ⟨h0 _ (List.mem_cons_self _ _), by norm_num⟩
          | cons r rs =>
              have hd : durationsAux
                  (ChEvent.note te pe ve ie pane soe :: r :: rs) =
                  ⟨te, pe, ve, ie, min (r.time - te) 4, pane, soe⟩ ::
                    durationsAux (r :: rs) := rfl
              rw [hd] at hn
              rcases List.mem_cons.mp hn with rfl | hn2
              · refine ⟨h0 _ (List.mem_cons_self _ _), ?_⟩
                have hlt : te < r.time := hpc.1 r (List.mem_cons_self _ _)
                have hsub : (0 : ℚ) < r.time - te := by linarith
                exact lt_min hsub (by norm_num)
              · exact ih hpc.2 (fun x hx => h0 x (List.mem_cons_of_mem _ hx)) n hn2

/-- The builder invariants for any pattern list satisfying the decoder
invariants. -/
theorem organizeChannel_invariants (patterns : List Pattern) (order : List ℕ)
    (c : ℕ)
    (H1 : ∀ p ∈ patterns, ∀ e ∈ p.data, e.row < p.rows)
    (H2 : ∀ p ∈ patterns,
      p.data.Pairwise (fun a b => a.channel = b.channel → a.row ≠ b.row)) :
    ∀ n ∈ organizeChannel patterns order c, 0 ≤ n.time ∧ 0 < n.duration := by
  intro n hn
  unfold organizeChannel at hn
  have hperm := List.perm_insertionSort timeLE (collectChannel patterns c order 0)
  have hsorted : (List.insertionSort timeLE
      (collectChannel patterns c order 0)).Pairwise timeLE :=
    List.sorted_insertionSort timeLE _
  have hne : (List.insertionSort timeLE
      (collectChannel patterns c order 0)).Pairwise
      (fun a b => a.time ≠ b.time) := by
    rw [List.Perm.pairwise_iff (fun h => Ne.symm h) hperm]
    exact collectChannel_pairwise patterns c H1 H2 order 0
  have hlt : (List.insertionSort timeLE
      (collectChannel patterns c order 0)).Pairwise
      (fun a b => a.time < b.time) :=
    List.Pairwise.imp (fun hab => lt_of_le_of_ne hab.1 hab.2)
      (List.Pairwise.and hsorted hne)
  have h0 : ∀ e ∈ List.insertionSort timeLE
      (collectChannel patterns c order 0), 0 ≤ e.time := by
    intro e he
    exact collectChannel_time_lb patterns c order 0 e (hperm.mem_iff.mp he)
  exact durationsAux_pos _ hlt h0 n hn

/-- Row projection of the MOD cell mapping. -/
theorem modCell_row (e : ModEntry) : (modCell e).row = e.row := by
  unfold modCell
  split <;> rfl

/-- Channel projection of the MOD cell mapping. -/
theorem modCell_channel (e : ModEntry) : (modCell e).channel = e.channel := by
  unfold modCell
  split <;> rfl

/-- Row projection of the XM cell mapping. -/
theorem xmCell_row (e : XmEntry) : (xmCell e).row = e.row := by
  unfold xmCell
  split <;> rfl

/-- Channel projection of the XM cell mapping. -/
theorem xmCell_channel (e : XmEntry) : (xmCell e).channel = e.channel := by
  unfold xmCell
  split <;> rfl

/-- C9: every note event produced by the note track builder, in both the
MOD and the XM pipeline, has time at least 0 and duration strictly
positive, for every decoded module (each decoded entry has its row index
below the pattern row count, and one decoded entry per pattern cell, so
rows are distinct per channel within one pattern). -/
theorem C9_note_event_invariants :
    (∀ (mp : List ModPattern) (order : List ℕ) (c : ℕ),
      (∀ p ∈ mp, ∀ e ∈ p.data, e.row < p.rows) →
      (∀ p ∈ mp,
        p.data.Pairwise (fun a b => a.channel = b.channel → a.row ≠ b.row)) →
      ∀ n ∈ organizeModChannel mp order c, 0 ≤ n.time ∧ 0 < n.duration) ∧
    (∀ (xp : List XmPattern) (order : List ℕ) (c : ℕ),
      (∀ p ∈ xp, ∀ e ∈ p.data, e.row < p.rows) →
      (∀ p ∈ xp,
        p.data.Pairwise (fun a b => a.channel = b.channel → a.row ≠ b.row)) →
      ∀ n ∈ organizeXmChannel xp order c, 0 ≤ n.time ∧ 0 < n.duration) := by
  constructor
  · intro mp order c H1 H2
    apply organizeChannel_invariants
    · intro p hp e he
      obtain ⟨q, hq, rfl⟩ := List.mem_map.mp hp
      obtain ⟨e0, he0, rfl⟩ := List.mem_map.mp he
      rw [modCell_row]
      exact H1 q hq e0 he0
    · intro p hp
      obtain ⟨q, hq, rfl⟩ := List.mem_map.mp hp
      rw [List.pairwise_map]
      refine List.Pairwise.imp ?_ (H2 q hq)
      intro a b hab
      rw [modCell_channel, modCell_channel, modCell_row, modCell_row]
      exact hab
  · intro xp order c H1 H2
    apply organizeChannel_invariants
    · intro p hp e he
      obtain ⟨q, hq, rfl⟩ := List.mem_map.mp hp
      obtain ⟨e0, he0, rfl⟩ := List.mem_map.mp he
      rw [xmCell_row]
      exact H1 q hq e0 he0
    · intro p hp
      obtain ⟨q, hq, rfl⟩ := List.mem_map.mp hp
      rw [List.pairwise_map]
      refine List.Pairwise.imp ?_ (H2 q hq)
      intro a b hab
      rw [xmCell_channel, xmCell_channel, xmCell_row, xmCell_row]
      exact hab

/-- A concrete decoded MOD note entry on channel 0. -/
def mEntry (row : ℕ) : ModEntry := ⟨row, 0, some 60, 1, 0, 0, 64, none, false⟩

/-- A concrete decoded MOD pattern with two notes. -/
def mPat : ModPattern := ⟨64, [mEntry 0, mEntry 4]⟩

/-- Witness for C9 at a one-pattern MOD module with two notes. -/
theorem C9_witness :
    (∀ p ∈ [mPat], ∀ e ∈ p.data, e.row < p.rows) ∧
    (∀ p ∈ [mPat],
      p.data.Pairwise (fun a b => a.channel = b.channel → a.row ≠ b.row)) ∧
    (∀ n ∈ organizeModChannel [mPat] [0] 0, 0 ≤ n.time ∧ 0 < n.duration) :=
  ⟨by decide, by decide,
   C9_note_event_invariants.1 [mPat] [0] 0 (by decide) (by decide)⟩

/-! ## Claim C10: MOD velocities are constant 127 -/

/-- Every non-volume-stop entry the MOD cell decoder emits carries the
fixed default volume 64: real notes and effect-0xF rows both receive 64;
only the effect-0xC volume-stop marker carries 0, and it is flagged as a
stop. -/
theorem decodeModCell_volume (fb : ℕ → ℤ) (cb : ModCellBytes) (e : ModEntry)
    (h : decodeModCell fb cb = some e) (hs : e.isVolumeStop = false) :
    e.volume = 64 := by
  simp only [decodeModCell] at h
  split at h
  · cases hm : period_to_midi fb ((cb.b0 &&& 0x0F) <<< 8 ||| cb.b1) with
    | none =>
        simp only [hm] at h
        exact absurd h (by simp)
    | some midi =>
        simp only [hm] at h
        by_cases hmz : midi ≠ 0
        · rw [if_pos hmz] at h
          have he := Option.some.inj h
          rw [← he]
        · rw [if_neg hmz] at h
          simp at h
  · split at h
    · have he := Option.some.inj h
      rw [← he]
    · split at h
      · have he := Option.some.inj h
        rw [← he] at hs
        simp at hs
      · simp at h

/-- Stop-flag projection of the MOD cell mapping. -/
theorem modCell_stop (e : ModEntry) : (modCell e).isVolumeStop = e.isVolumeStop := by
  unfold modCell
  split
  · next h => simp [h]
  · next h =>
      simp only [Bool.not_eq_true] at h
      simp [h]

/-- The builder velocity of a MOD note with the default volume 64 is
int (64 / 64 * 127) = 127. -/
theorem modCell_velocity (e : ModEntry) (hs : e.isVolumeStop = false)
    (hv : e.volume = 64) : (modCell e).velocity = 127 := by
  unfold modCell
  rw [if_neg (by simp [hs])]
  simp [hv]

/-- Velocity of every real-note timeline event collected for a channel
is a velocity of some non-stop pattern entry. -/
theorem collectChannel_velocity (patterns : List Pattern) (c : ℕ)
    (H : ∀ p ∈ patterns, ∀ e ∈ p.data,
      e.isVolumeStop = false → e.velocity = 127) :
    ∀ (order : List ℕ) (cur : ℚ) (t : ℚ) (pi : Option ℤ) (v inst : ℕ)
      (pan so : Option ℕ),
      ChEvent.note t pi v inst pan so ∈ collectChannel patterns c order cur →
      v = 127 := by
  intro order
  induction order with
  | nil =>
      intro cur t pi v inst pan so hmem
      simp [collectChannel] at hmem
  | cons idx rest ih =>
      intro cur t pi v inst pan so hmem
      cases hidx : patterns[idx]? with
      | none =>
          rw [collectChannel, hidx] at hmem
          exact ih cur t pi v inst pan so hmem
      | some p =>
          have hpmem : p ∈ patterns := List.getElem?_mem hidx
          rw [collectChannel, hidx] at hmem
          rcases List.mem_append.mp hmem with h1 | h1
          · obtain ⟨a, ha, heq⟩ := List.mem_map.mp h1
            have hadata : a ∈ p.data := (List.mem_filter.mp ha).1
            unfold cellToEvent at heq
            split at heq
            · cases heq
            · next hstop =>
                have hv := ChEvent.note.inj heq
                have hsf : a.isVolumeStop = false := by
                  simpa [Bool.not_eq_true] using hstop
                rw [← hv.2.2.1]
                exact H p hpmem a hadata hsf
          · exact ih (cur + (p.rows : ℚ) / 4) t pi v inst pan so h1

/-- The duration loop copies each real-note velocity unchanged. -/
theorem durationsAux_velocity :
    ∀ (l : List ChEvent),
      (∀ (t : ℚ) (pi : Option ℤ) (v inst : ℕ) (pan so : Option ℕ),
        ChEvent.note t pi v inst pan so ∈ l → v = 127) →
      ∀ n ∈ durationsAux l, n.velocity = 127 := by
  intro l
  induction l with
  | nil =>
      intro _ n hn
      simp [durationsAux] at hn
  | cons e rest ih =>
      intro H n hn
      cases e with
      | stop te =>
          have hd : durationsAux (ChEvent.stop te :: rest) = durationsAux rest := rfl
          rw [hd] at hn
          exact ih (fun t pi v inst pan so hm =>
            H t pi v inst pan so (List.mem_cons_of_mem _ hm)) n hn
      | note te pe ve ie pane soe =>
          obtain ⟨x, hd⟩ :
              ∃ x, durationsAux (ChEvent.note te pe ve ie pane soe :: rest) =
                (⟨te, pe, ve, ie, x, pane, soe⟩ : TrackNote) ::
                  durationsAux rest := ⟨_, rfl⟩
          rw [hd] at hn
          rcases List.mem_cons.mp hn with rfl | hn2
          · exact H te pe ve ie pane soe (List.mem_cons_self _ _)
          · exact ih (fun t pi v inst pan so hm =>
              H t pi v inst pan so (List.mem_cons_of_mem _ hm)) n hn2

/-- Builder output velocities are 127 whenever every non-stop pattern
entry carries velocity 127. -/
theorem organizeChannel_velocity (patterns : List Pattern) (order : List ℕ)
    (c : ℕ)
    (H : ∀ p ∈ patterns, ∀ e ∈ p.data,
      e.isVolumeStop = false → e.velocity = 127) :
    ∀ n ∈ organizeChannel patterns order c, n.velocity = 127 := by
  intro n hn
  unfold organizeChannel at hn
  have hperm := List.perm_insertionSort timeLE (collectChannel patterns c order 0)
  refine durationsAux_velocity _ ?_ n hn
  intro t pi v inst pan so hm
  exact collectChannel_velocity patterns c H order 0 t pi v inst pan so
    (hperm.mem_iff.mp hm)

/-- C10: every note event of the MOD pipeline has velocity exactly 127:
the MOD cell decoder gives every decoded non-stop entry the fixed
default volume 64 (volume commands other than C00 are never captured),
the builder computes int (64 / 64 * 127) = 127 from it, and hence every
note produced by organize_tracks_by_channel over decoded MOD patterns
has velocity 127. -/
theorem C10_mod_velocity :
    (∀ (fb : ℕ → ℤ) (cb : ModCellBytes) (e : ModEntry),
      decodeModCell fb cb = some e → e.isVolumeStop = false →
      e.volume = 64) ∧
    (∀ e : ModEntry, e.isVolumeStop = false → e.volume = 64 →
      (modCell e).velocity = 127) ∧
    (∀ (fb : ℕ → ℤ) (raw : List (ℕ × List ModCellBytes)) (order : List ℕ)
      (c : ℕ),
      ∀ n ∈ organizeModChannel
          (raw.map (fun rc => ⟨rc.1, decodeModPattern fb rc.2⟩)) order c,
        n.velocity = 127) := by
  refine ⟨decodeModCell_volume, modCell_velocity, ?_⟩
  intro fb raw order c
  unfold organizeModChannel
  apply organizeChannel_velocity
  intro p hp e he hestop
  obtain ⟨q, hq, rfl⟩ := List.mem_map.mp hp
  obtain ⟨e0, he0, rfl⟩ := List.mem_map.mp he
  obtain ⟨q0, hq0, rfl⟩ := List.mem_map.mp hq
  have hstop0 : e0.isVolumeStop = false := by
    rw [← modCell_stop e0]
    exact hestop
  obtain ⟨cb, hcb, hdec⟩ := List.mem_filterMap.mp he0
  have hvol : e0.volume = 64 := decodeModCell_volume fb cb e0 hdec hstop0
  exact modCell_velocity e0 hstop0 hvol

/-- A concrete raw MOD cell: period 856, sample 1, no effect. -/
def cByte : ModCellBytes := ⟨0, 0, 3, 88, 16, 0⟩

/-- The entry the decoder produces from cByte. -/
def cEntry : ModEntry := ⟨0, 0, some 48, 1, 0, 0, 64, none, false⟩

set_option maxRecDepth 8000 in
/-- Witness for C10 at one concrete raw cell and the one-pattern module
built from it. -/
theorem C10_witness :
    decodeModCell (fun _ => (0 : ℤ)) cByte = some cEntry ∧
    cEntry.isVolumeStop = false ∧
    cEntry.volume = 64 ∧
    (modCell cEntry).velocity = 127 ∧
    (∀ n ∈ organizeModChannel
        ([((64 : ℕ), [cByte])].map
          (fun rc => ⟨rc.1, decodeModPattern (fun _ => (0 : ℤ)) rc.2⟩)) [0] 0,
      n.velocity = 127) :=
  ⟨by decide, rfl,
   C10_mod_velocity.1 (fun _ => (0 : ℤ)) cByte cEntry (by decide) rfl,
   C10_mod_velocity.2.1 cEntry rfl rfl,
   C10_mod_velocity.2.2 (fun _ => (0 : ℤ)) [(64, [cByte])] [0] 0⟩
